import Mathlib

/-!
Verification of the PromptRecord side-panel prompt manager.

The source is a single JavaScript class `PromptManager` (src/unnamed/part_000)
holding an ordered list of prompt records, a current filter and a persistence
key (chrome.storage.local under the key `prompts`).  We embed the data model
and the CRUD/query operations as pure Lean functions: the DOM-rendering calls
(`render`, `updateFilters`) do not touch manager state and are dropped; the
storage collaborator is modelled as an `Option (List Prompt)` field of the
state; the clock (`new Date().toISOString()`) and the id generator
(`generateId`) are passed as explicit string parameters.

JavaScript string primitives used by the source (`split(',')`, `trim`,
`toLowerCase`, `includes`) are embedded as structurally recursive functions on
`List Char` so that every definition evaluates inside the kernel.
-/

/-- A prompt record, mirroring the documented data model of the source
(`id`, `title`, `content`, `category`, `groups`, `createdAt`, `updatedAt`). -/
structure Prompt where
  id : String
  title : String
  content : String
  category : String
  groups : List String
  createdAt : String
  updatedAt : String
deriving DecidableEq, Repr

/-- The form data handed to `addPrompt`/`updatePrompt`: all four fields come
from text inputs, hence are strings (`groups` is the raw comma-separated
string). -/
structure PromptData where
  title : String
  content : String
  category : String
  groups : String
deriving DecidableEq, Repr

/-- The `currentFilter` record of the manager. -/
structure FilterState where
  search : String
  category : String
  group : String
deriving DecidableEq, Repr

/-- Manager state: the in-memory list, the current filter, and the persisted
value under the storage key (`none` when nothing was ever stored). -/
structure ManagerState where
  prompts : List Prompt
  currentFilter : FilterState
  storage : Option (List Prompt)
deriving DecidableEq, Repr

/-- JavaScript truthiness restricted to strings: a string is truthy iff it is
non-empty. -/
def truthy (s : String) : Bool := s != ""

/-- Helper for `splitComma`: walks the characters, accumulating the current
piece (reversed); a comma closes the current piece. -/
def splitCommaAux : List Char → List Char → List String
  | [], acc => [String.mk acc.reverse]
  | c :: cs, acc =>
    if c == ',' then String.mk acc.reverse :: splitCommaAux cs []
    else splitCommaAux cs (c :: acc)

/-- JavaScript `s.split(',')`: the pieces of `s` between commas (the empty
string yields `[""]`). -/
def splitComma (s : String) : List String := splitCommaAux s.toList []

/-- JavaScript `s.trim()`: drop leading and trailing whitespace. -/
def trimStr (s : String) : String :=
  String.mk (((s.toList.dropWhile Char.isWhitespace).reverse.dropWhile
    Char.isWhitespace).reverse)

/-- JavaScript `s.toLowerCase()` (ASCII case mapping). -/
def lowerStr (s : String) : String := String.mk (s.toList.map Char.toLower)

/-- `startsWithChars needle hay`: `hay` begins with `needle`. -/
def startsWithChars : List Char → List Char → Bool
  | [], _ => true
  | _ :: _, [] => false
  | n :: ns, h :: hs => n == h && startsWithChars ns hs

/-- `includesChars needle hay`: some suffix of `hay` begins with `needle`. -/
def includesChars (needle : List Char) : List Char → Bool
  | [] => needle.isEmpty
  | h :: hs => startsWithChars needle (h :: hs) || includesChars needle hs

/-- JavaScript `hay.includes(needle)` on strings: substring containment. -/
def strIncludes (hay needle : String) : Bool :=
  includesChars needle.toList hay.toList

/-- The sentinel category substituted for a falsy `data.category`
(`'未分类'`, Chinese for "uncategorized"). -/
def defaultCategory : String := "未分类"

/-- `data.groups ? data.groups.split(',').map(g => g.trim()).filter(g => g) : []`. -/
def parseGroups (s : String) : List String :=
  if truthy s then ((splitComma s).map trimStr).filter (fun g => truthy g)
  else []

/-- The prompt object literal built by `addPrompt`: `gid` stands for the
freshly generated id, `now` for `new Date().toISOString()`. -/
def mkPrompt (gid now : String) (data : PromptData) : Prompt :=
  { id := gid
    title := data.title
    content := data.content
    category := if truthy data.category then data.category else defaultCategory
    groups := parseGroups data.groups
    createdAt := now
    updatedAt := now }

/-- `loadPrompts`: `this.prompts = result.prompts || []`. -/
def loadPrompts (st : ManagerState) : ManagerState :=
  { st with prompts := st.storage.getD [] }

/-- `savePrompts`: writes the whole in-memory list under the storage key. -/
def savePrompts (st : ManagerState) : ManagerState :=
  { st with storage := some st.prompts }

/-- `addPrompt data`: builds the new prompt, prepends it (`unshift`), saves. -/
def addPrompt (gid now : String) (data : PromptData) (st : ManagerState) :
    ManagerState :=
  let p := mkPrompt gid now data
  savePrompts { st with prompts := p :: st.prompts }

/-- The object-spread update applied to the found prompt in `updatePrompt`:
every field is overwritten except `id` and `createdAt`, which the spread
carries over. -/
def applyUpdate (now : String) (data : PromptData) (p : Prompt) : Prompt :=
  { p with
    title := data.title
    content := data.content
    category := if truthy data.category then data.category else defaultCategory
    groups := parseGroups data.groups
    updatedAt := now }

/-- Replace the first prompt whose id matches (the element at
`findIndex(p => p.id === id)`); later duplicates are untouched. -/
def replaceFirst (now id : String) (data : PromptData) :
    List Prompt → List Prompt
  | [] => []
  | p :: ps =>
    if p.id == id then applyUpdate now data p :: ps
    else p :: replaceFirst now id data ps

/-- `updatePrompt id data`: `findIndex` ≠ -1 is an existence check; when it
succeeds the element at that index is replaced and the list saved, otherwise
nothing happens at all (no save, no render). -/
def updatePrompt (now id : String) (data : PromptData) (st : ManagerState) :
    ManagerState :=
  if st.prompts.any (fun p => p.id == id) then
    let ps := replaceFirst now id data st.prompts
    { st with prompts := ps, storage := some ps }
  else st

/-- `deletePrompt id`: `this.prompts = this.prompts.filter(p => p.id !== id)`,
then save. -/
def deletePrompt (id : String) (st : ManagerState) : ManagerState :=
  let ps := st.prompts.filter (fun p => p.id != id)
  { st with prompts := ps, storage := some ps }

/-- The per-prompt predicate of `getFilteredPrompts`, with the source's
early-return structure. -/
def promptPasses (f : FilterState) (p : Prompt) : Bool :=
  if truthy f.search &&
      !(strIncludes (lowerStr p.title) (lowerStr f.search)) &&
      !(strIncludes (lowerStr p.content) (lowerStr f.search)) then false
  else if truthy f.category && p.category != f.category then false
  else if truthy f.group && !(p.groups.contains f.group) then false
  else true

/-- `getFilteredPrompts()`: filter the collection by the current filter. -/
def getFilteredPrompts (st : ManagerState) : List Prompt :=
  st.prompts.filter (promptPasses st.currentFilter)

/-- `getCategories()`: the distinct truthy categories (a JS `Set`, here a
first-occurrence dedup), sorted. -/
def getCategories (st : ManagerState) : List String :=
  List.insertionSort (· ≤ ·)
    (((st.prompts.map Prompt.category).filter truthy).dedup)

/-- `getGroups()`: the distinct group labels across the collection, sorted. -/
def getGroups (st : ManagerState) : List String :=
  List.insertionSort (· ≤ ·) ((st.prompts.map Prompt.groups).flatten.dedup)

/-- The spec's description of group derivation, for comparison with
`parseGroups`: split the comma-separated input, trim each piece, discard
empty results. -/
def specSplitGroups (s : String) : List String :=
  ((splitComma s).map trimStr).filter (fun g => g != "")

/-- The spec's filter semantics as a conjunction of three independent
predicates, each vacuously true when its field is empty. -/
def specPasses (f : FilterState) (p : Prompt) : Bool :=
  (f.search == "" || strIncludes (lowerStr p.title) (lowerStr f.search)
      || strIncludes (lowerStr p.content) (lowerStr f.search)) &&
  (f.category == "" || p.category == f.category) &&
  (f.group == "" || p.groups.contains f.group)

/-- Sample prompt for witnesses. -/
def p1 : Prompt :=
  ⟨"id1", "Alpha", "hello world", "work", ["x", "y"], "d1", "d1"⟩

/-- Second sample prompt for witnesses. -/
def p2 : Prompt :=
  ⟨"id2", "Beta", "note", "life", ["y"], "d2", "d2"⟩

/-- Sample manager state for witnesses. -/
def sampleState : ManagerState :=
  ⟨[p1, p2], ⟨"", "", ""⟩, some [p1, p2]⟩

lemma parseGroups_eq_spec (s : String) : parseGroups s = specSplitGroups s := by
  by_cases h : s = ""
  · subst h; decide
  · simp only [parseGroups, specSplitGroups, truthy, bne_iff_ne, ne_eq, h,
      not_false_eq_true, if_true]

/-- C10: the prompt built by add has `createdAt` equal to `updatedAt`, both
taken from the same current-time value. -/
theorem mkPrompt_createdAt_eq_updatedAt (gid now : String) (data : PromptData) :
    (mkPrompt gid now data).createdAt = (mkPrompt gid now data).updatedAt := rfl

/-- C9: adding a prompt and then reloading from storage yields a collection
whose head is exactly the prompt just built — all fields unchanged — on top of
the previous collection. -/
theorem add_then_load_roundtrip (gid now : String) (data : PromptData)
    (st : ManagerState) :
    (loadPrompts (addPrompt gid now data st)).prompts
        = mkPrompt gid now data :: st.prompts ∧
    mkPrompt gid now data ∈ (loadPrompts (addPrompt gid now data st)).prompts :=
  ⟨rfl, List.mem_cons_self _ _⟩

/-- C5: the groups of a newly added prompt are the comma-separated input
split, trimmed and with empty pieces discarded (the falsy-input guard in the
code coincides with this since splitting the empty string leaves only an
empty piece, which is discarded); in particular `"x, y, "` yields
`["x", "y"]`. -/
theorem addPrompt_groups_spec :
    (∀ gid now data,
      (mkPrompt gid now data).groups = specSplitGroups data.groups) ∧
    (mkPrompt "p1" "t0" ⟨"A", "hello world", "", "x, y, "⟩).groups
        = ["x", "y"] := by
  refine ⟨fun gid now data => ?_, by decide⟩
  show parseGroups data.groups = specSplitGroups data.groups
  exact parseGroups_eq_spec data.groups

/-- C1 counterexample: the sentinel category written by the code is the
Chinese string `"未分类"`, not the literal string `"uncategorized"`; the
claim's example input refutes it. -/
theorem addPrompt_category_not_ascii_uncategorized :
    (mkPrompt "p1" "t0" ⟨"A", "hello world", "", "x, y, "⟩).category
        ≠ "uncategorized" := by decide

/-- C1 (amended): when `data.category` is falsy (the empty string), the new
prompt's category is the sentinel `defaultCategory = "未分类"` ("uncategorized"
in Chinese). -/
theorem addPrompt_category_default (gid now : String) (data : PromptData)
    (h : data.category = "") :
    (mkPrompt gid now data).category = defaultCategory := by
  simp [mkPrompt, truthy, h]

/-- Witness for C1's amended theorem at the claim's example input. -/
theorem addPrompt_category_default_witness :
    (mkPrompt "p1" "t0" ⟨"A", "hello world", "", "x, y, "⟩).category
        = defaultCategory :=
  addPrompt_category_default "p1" "t0" ⟨"A", "hello world", "", "x, y, "⟩ rfl

/-- C3: updating a non-existent id leaves the whole manager state unchanged
(no list change, no save). -/
theorem updatePrompt_absent_noop (now id : String) (data : PromptData)
    (st : ManagerState) (h : ∀ p ∈ st.prompts, p.id ≠ id) :
    updatePrompt now id data st = st := by
  unfold updatePrompt
  have hany : st.prompts.any (fun p => p.id == id) = false := by
    simp only [List.any_eq_false, beq_iff_eq]
    exact h
  simp [hany]

/-- Witness for C3 at a concrete state and a fresh id. -/
theorem updatePrompt_absent_noop_witness :
    updatePrompt "t9" "zzz" ⟨"T", "C", "cat", "g"⟩ sampleState = sampleState :=
  updatePrompt_absent_noop "t9" "zzz" ⟨"T", "C", "cat", "g"⟩ sampleState
    (by decide)

/-- The prompt built from one element of an add sequence (id, time, data). -/
def mkOf (a : String × String × PromptData) : Prompt :=
  mkPrompt a.1 a.2.1 a.2.2

/-- A sequence of `addPrompt` calls, applied left to right. -/
def addAll (args : List (String × String × PromptData)) (st : ManagerState) :
    ManagerState :=
  args.foldl (fun s a => addPrompt a.1 a.2.1 a.2.2 s) st

lemma addAll_prompts (args : List (String × String × PromptData))
    (st : ManagerState) :
    (addAll args st).prompts = (args.map mkOf).reverse ++ st.prompts := by
  induction args generalizing st with
  | nil => simp [addAll]
  | cons a as ih =>
    have h1 : addAll (a :: as) st = addAll as (addPrompt a.1 a.2.1 a.2.2 st) :=
      rfl
    rw [h1, ih]
    simp [addPrompt, savePrompts, mkOf]

/-- C6: every add prepends, so after any sequence of adds the collection is
the added prompts in reverse order of addition on top of the initial
collection; in particular after a sequence ending in `a` the most recently
added prompt `mkOf a` is first. -/
theorem addAll_newest_first (args : List (String × String × PromptData))
    (st : ManagerState) :
    ((addAll args st).prompts = (args.map mkOf).reverse ++ st.prompts) ∧
    ∀ a, (addAll (args ++ [a]) st).prompts.head? = some (mkOf a) := by
  refine ⟨addAll_prompts args st, fun a => ?_⟩
  rw [addAll_prompts]
  simp

lemma length_filter_ne_id {l : List Prompt} {id : String}
    (hnd : (l.map Prompt.id).Nodup) {p : Prompt} (hp : p ∈ l)
    (hid : p.id = id) :
    (l.filter (fun q => q.id != id)).length + 1 = l.length := by
  induction l with
  | nil => cases hp
  | cons q t ih =>
    rw [List.map_cons, List.nodup_cons] at hnd
    obtain ⟨hq, hnd'⟩ := hnd
    by_cases hqid : q.id = id
    · have ht : ∀ r ∈ t, r.id ≠ id := by
        intro r hr hrid
        exact hq (by rw [hqid, ← hrid]; exact List.mem_map.mpr ⟨r, hr, rfl⟩)
      have hfix : t.filter (fun q => q.id != id) = t :=
        List.filter_eq_self.mpr fun a ha => by
          simpa [bne_iff_ne] using ht a ha
      simp [List.filter_cons, hqid, hfix]
    · have hpt : p ∈ t := by
        rcases List.mem_cons.mp hp with h | h
        · exact absurd (h ▸ hid) hqid
        · exact h
      have hlen := ih hnd' hpt
      have hbk : (q.id != id) = true := by simp [bne_iff_ne, hqid]
      rw [show List.filter (fun q => q.id != id) (q :: t)
            = q :: List.filter (fun q => q.id != id) t
          from List.filter_cons_of_pos hbk,
        List.length_cons, List.length_cons]
      omega

/-- C2: on a collection with unique ids (the collection invariant), delete
removes exactly one entry when the id is present, zero otherwise, and the
collection size decreases by at most one. -/
theorem deletePrompt_spec (st : ManagerState) (id : String)
    (hnd : (st.prompts.map Prompt.id).Nodup) :
    ((∃ p ∈ st.prompts, p.id = id) →
      (deletePrompt id st).prompts.length + 1 = st.prompts.length) ∧
    ((¬ ∃ p ∈ st.prompts, p.id = id) →
      (deletePrompt id st).prompts = st.prompts) ∧
    st.prompts.length ≤ (deletePrompt id st).prompts.length + 1 := by
  have habs : (¬ ∃ p ∈ st.prompts, p.id = id) →
      (deletePrompt id st).prompts = st.prompts := by
    intro h
    show st.prompts.filter (fun q => q.id != id) = st.prompts
    refine List.filter_eq_self.mpr fun a ha => ?_
    simp only [bne_iff_ne, ne_eq, decide_eq_true_eq]
    exact fun haid => h ⟨a, ha, haid⟩
  have hpres : (∃ p ∈ st.prompts, p.id = id) →
      (deletePrompt id st).prompts.length + 1 = st.prompts.length := by
    rintro ⟨p, hp, hid⟩
    exact length_filter_ne_id hnd hp hid
  refine ⟨hpres, habs, ?_⟩
  by_cases h : ∃ p ∈ st.prompts, p.id = id
  · have := hpres h; omega
  · rw [habs h]; omega

/-- Witness for C2 at a concrete two-element collection. -/
theorem deletePrompt_spec_witness :
    ((∃ p ∈ sampleState.prompts, p.id = "id1") →
      (deletePrompt "id1" sampleState).prompts.length + 1
        = sampleState.prompts.length) ∧
    ((¬ ∃ p ∈ sampleState.prompts, p.id = "id1") →
      (deletePrompt "id1" sampleState).prompts = sampleState.prompts) ∧
    sampleState.prompts.length
      ≤ (deletePrompt "id1" sampleState).prompts.length + 1 :=
  deletePrompt_spec sampleState "id1" (by decide)

lemma replaceFirst_eq_set {l : List Prompt} {id : String}
    (hnd : (l.map Prompt.id).Nodup) {p : Prompt} (hp : p ∈ l)
    (hid : p.id = id) (now : String) (data : PromptData) :
    ∃ i, l[i]? = some p ∧
      replaceFirst now id data l = l.set i (applyUpdate now data p) := by
  induction l with
  | nil => cases hp
  | cons q t ih =>
    rw [List.map_cons, List.nodup_cons] at hnd
    obtain ⟨hq, hnd'⟩ := hnd
    by_cases hqid : q.id = id
    · have hpq : p = q := by
        rcases List.mem_cons.mp hp with h | h
        · exact h
        · exact absurd (by rw [hqid, ← hid]; exact List.mem_map.mpr ⟨p, h, rfl⟩)
            hq
      refine ⟨0, by simp [hpq], ?_⟩
      simp [replaceFirst, hqid, hpq]
    · have hpt : p ∈ t := by
        rcases List.mem_cons.mp hp with h | h
        · exact absurd (h ▸ hid) hqid
        · exact h
      obtain ⟨i, hget, heq⟩ := ih hnd' hpt
      refine ⟨i + 1, by simpa using hget, ?_⟩
      simp [replaceFirst, hqid, heq]

/-- C4: updating an existing id (on a collection with unique ids) replaces
exactly the prompt with that id: the result is the old collection with the
element at the prompt's position overwritten by the spread-update — which
keeps `id` and `createdAt`, takes `title`/`content` from the data, re-derives
`category` and `groups` as add does, and stamps `updatedAt` with the current
time — and every other position is unchanged. -/
theorem updatePrompt_replaces (now id : String) (data : PromptData)
    (st : ManagerState) (hnd : (st.prompts.map Prompt.id).Nodup)
    (p : Prompt) (hp : p ∈ st.prompts) (hid : p.id = id) :
    ∃ i, st.prompts[i]? = some p ∧
      (updatePrompt now id data st).prompts
          = st.prompts.set i (applyUpdate now data p) ∧
      (∀ j, j ≠ i →
        (updatePrompt now id data st).prompts[j]? = st.prompts[j]?) ∧
      (applyUpdate now data p).id = p.id ∧
      (applyUpdate now data p).createdAt = p.createdAt ∧
      (applyUpdate now data p).title = data.title ∧
      (applyUpdate now data p).content = data.content ∧
      (applyUpdate now data p).category
          = (if truthy data.category then data.category else defaultCategory) ∧
      (applyUpdate now data p).groups = specSplitGroups data.groups ∧
      (applyUpdate now data p).updatedAt = now := by
  obtain ⟨i, hget, heq⟩ := replaceFirst_eq_set hnd hp hid now data
  have hany : st.prompts.any (fun q => q.id == id) = true :=
    List.any_eq_true.mpr ⟨p, hp, by simp [hid]⟩
  have hprompts : (updatePrompt now id data st).prompts
      = st.prompts.set i (applyUpdate now data p) := by
    unfold updatePrompt
    rw [hany]
    simpa using heq
  refine ⟨i, hget, hprompts, ?_, rfl, rfl, rfl, rfl, rfl,
    parseGroups_eq_spec data.groups, rfl⟩
  intro j hj
  rw [hprompts]
  exact List.getElem?_set_ne (fun h => hj h.symm)

/-- Witness for C4: update the second sample prompt. -/
theorem updatePrompt_replaces_witness :
    ∃ i, sampleState.prompts[i]? = some p2 ∧
      (updatePrompt "t9" "id2" ⟨"B2", "note2", "", "a, b"⟩
          sampleState).prompts
          = sampleState.prompts.set i
              (applyUpdate "t9" ⟨"B2", "note2", "", "a, b"⟩ p2) ∧
      (∀ j, j ≠ i →
        (updatePrompt "t9" "id2" ⟨"B2", "note2", "", "a, b"⟩
            sampleState).prompts[j]? = sampleState.prompts[j]?) ∧
      (applyUpdate "t9" ⟨"B2", "note2", "", "a, b"⟩ p2).id = p2.id ∧
      (applyUpdate "t9" ⟨"B2", "note2", "", "a, b"⟩ p2).createdAt
          = p2.createdAt ∧
      (applyUpdate "t9" ⟨"B2", "note2", "", "a, b"⟩ p2).title = "B2" ∧
      (applyUpdate "t9" ⟨"B2", "note2", "", "a, b"⟩ p2).content = "note2" ∧
      (applyUpdate "t9" ⟨"B2", "note2", "", "a, b"⟩ p2).category
          = (if truthy "" then "" else defaultCategory) ∧
      (applyUpdate "t9" ⟨"B2", "note2", "", "a, b"⟩ p2).groups
          = specSplitGroups "a, b" ∧
      (applyUpdate "t9" ⟨"B2", "note2", "", "a, b"⟩ p2).updatedAt = "t9" :=
  updatePrompt_replaces "t9" "id2" ⟨"B2", "note2", "", "a, b"⟩
    sampleState (by decide) p2 (by decide) rfl

lemma promptPasses_eq_spec (f : FilterState) (p : Prompt) :
    promptPasses f p = specPasses f p := by
  unfold promptPasses specPasses truthy
  cases h1 : (f.search == "") <;>
  cases h2 : strIncludes (lowerStr p.title) (lowerStr f.search) <;>
  cases h3 : strIncludes (lowerStr p.content) (lowerStr f.search) <;>
  cases h4 : (f.category == "") <;>
  cases h5 : (p.category == f.category) <;>
  cases h6 : (f.group == "") <;>
  cases h7 : (p.groups.contains f.group) <;>
  simp_all [bne]

/-- C7: the filtered view is exactly the collection filtered by the
conjunction of the three spec predicates (search/category/group, each
vacuously true when empty), it preserves collection order (it is a sublist),
and with all filter fields empty it is the full collection in stored order. -/
theorem getFilteredPrompts_spec (st : ManagerState) :
    getFilteredPrompts st = st.prompts.filter (specPasses st.currentFilter) ∧
    (getFilteredPrompts st).Sublist st.prompts ∧
    (st.currentFilter = ⟨"", "", ""⟩ → getFilteredPrompts st = st.prompts) := by
  have hfun : promptPasses st.currentFilter = specPasses st.currentFilter :=
    funext (promptPasses_eq_spec st.currentFilter)
  refine ⟨by rw [getFilteredPrompts, hfun], List.filter_sublist _, ?_⟩
  intro h
  unfold getFilteredPrompts
  rw [h]
  exact List.filter_eq_self.mpr fun a _ => rfl

/-- Witness for C7 at the sample state (whose filter is empty). -/
theorem getFilteredPrompts_spec_witness :
    getFilteredPrompts sampleState
        = sampleState.prompts.filter (specPasses sampleState.currentFilter) ∧
    (getFilteredPrompts sampleState).Sublist sampleState.prompts ∧
    (sampleState.currentFilter = ⟨"", "", ""⟩ →
      getFilteredPrompts sampleState = sampleState.prompts) :=
  getFilteredPrompts_spec sampleState

/-- C8: `getCategories` returns a sorted, duplicate-free list containing
exactly the non-empty categories of the whole collection, and it does not
depend on the current filter. -/
theorem getCategories_spec (st : ManagerState) :
    (getCategories st).Sorted (· ≤ ·) ∧
    (getCategories st).Nodup ∧
    (∀ c, c ∈ getCategories st ↔ c ≠ "" ∧ c ∈ st.prompts.map Prompt.category) ∧
    (∀ f, getCategories { st with currentFilter := f } = getCategories st) := by
  refine ⟨List.sorted_insertionSort _ _,
    (List.perm_insertionSort _ _).symm.nodup (List.nodup_dedup _),
    fun c => ?_, fun f => rfl⟩
  rw [getCategories, List.mem_insertionSort, List.mem_dedup, List.mem_filter]
  simp [truthy, bne_iff_ne, and_comm]
